import Mathlib

/-!
Verification of the proto-templates configuration language: a shallow embedding
of the recursive-descent parser (`src/parse.rs`) and of the flattening /
resolution engine (`src/flat.rs`), followed by theorems settling the frozen
claims about them.

Modelling conventions:
* Rust `&str` slices become `List Char` (`Source`); `String` keys become
  `List Char`.
* Rust `HashMap<Identifier, usize>` becomes an association list with
  overwrite-on-insert semantics (`idInsert`), mirroring `HashMap::insert`;
  `HashMap<String, FlatObject>` becomes an association list extended only for
  absent keys, mirroring the guarded `insert` in `fill_named_objects`.
  Iteration happens in insertion order (Rust's hash iteration order is
  unspecified; no claim depends on it).
* The mutually recursive parsing and resolution functions of the source are
  unbounded recursions (the resolver can even diverge on cyclic prototype
  chains), so both families are embedded as fuel-indexed function tables
  (`parserAt`, `resolveAt`) built by plain structural recursion on the fuel;
  `none` marks fuel exhaustion or a Rust panic path, `some` a result the Rust
  code actually returns.  The top-level `parse` supplies fuel that is ample
  for the recursion depth of any input of that length.
-/

namespace ProtoTemplates

abbrev Source := List Char

/-- AST identifier, `Identifier` in parse.rs: the local simple name of an object. -/
structure Identifier where
  name : List Char
  deriving DecidableEq, Repr

/-- AST reference, `Reference` in parse.rs: dotted path for a prototype. -/
structure Reference where
  identifiers : List Identifier
  deriving DecidableEq, Repr

/-- `ParseError` in parse.rs. -/
inductive ParseError where
  | unexpectedSymbol (expected : Option Char) (found : Source)
  | unexpectedEndOfInput (expected : Option Char)
  deriving DecidableEq, Repr

/-- `ResolveError` in parse.rs. -/
inductive ResolveError where
  | referenceNotFound (identifier : Identifier)
  | stringLiteralHasNoProperties
  deriving DecidableEq, Repr

/-- `Object` in parse.rs; the `Compound` struct's two fields together with the
`NamedObjects` pair of object list and name lookup are inlined as constructor
arguments (`prototype`, `overrideObjects`, `overrideIdentifiers`). -/
inductive Object where
  | stringLiteral (text : List Char) : Object
  | compound (prototype : Reference) (overrideObjects : List Object)
      (overrideIdentifiers : List (Identifier × Nat)) : Object

/-- `NamedObjects` in parse.rs: ordered objects plus a name-to-index lookup. -/
structure NamedObjects where
  objects : List Object
  identifiers : List (Identifier × Nat)

/-- Lookup in the association list modelling `HashMap<Identifier, usize>`. -/
def idLookup (m : List (Identifier × Nat)) (k : Identifier) : Option Nat :=
  match m with
  | [] => none
  | (k2, v) :: rest => if k2 = k then some v else idLookup rest k

/-- `HashMap::insert`: overwrites the value when the key is already present. -/
def idInsert (m : List (Identifier × Nat)) (k : Identifier) (v : Nat) :
    List (Identifier × Nat) :=
  match m with
  | [] => [(k, v)]
  | (k2, v2) :: rest => if k2 = k then (k2, v) :: rest else (k2, v2) :: idInsert rest k v

/-- `Reference::has_target` in parse.rs. -/
def hasTarget (r : Reference) : Bool :=
  !r.identifiers.isEmpty && r.identifiers.any (fun i => !i.name.isEmpty)

/-- Rust `str::trim_left` specialised to the whitespace the inputs use. -/
def trimLeft (s : Source) : Source := s.dropWhile Char.isWhitespace

/-- `skip_char` in parse.rs. -/
def skip_char (s : Source) (symbol : Char) : Option Source :=
  match s with
  | [] => none
  | c :: rest => if c = symbol then some rest else none

/-- `expect_char` in parse.rs. -/
def expect_char (s : Source) (expected : Char) : Except ParseError Source :=
  match skip_char s expected with
  | some rest => .ok rest
  | none => .error (.unexpectedSymbol (some expected) s)

/-- `parse_chars_while` in parse.rs: split at the first char failing the predicate. -/
def parse_chars_while (s : Source) (p : Char → Bool) : Source × Source :=
  (s.takeWhile p, s.dropWhile p)

/-- `parse_over_delimiter_char` in parse.rs. -/
def parse_over_delimiter_char (s : Source) (delimiter : Char) :
    Except ParseError (Source × Source) :=
  let split := parse_chars_while s (fun c => !(c = delimiter))
  match expect_char split.2 delimiter with
  | .ok rest => .ok (split.1, rest)
  | .error _ => .error (.unexpectedEndOfInput (some delimiter))

/-- `skip` in parse.rs: whitespace-skipping `skip_char`. -/
def skip (s : Source) (symbol : Char) : Option Source :=
  skip_char (trimLeft s) symbol

/-- `expect` in parse.rs: whitespace-skipping `expect_char`. -/
def expect (s : Source) (symbol : Char) : Except ParseError Source :=
  expect_char (trimLeft s) symbol

/-- `parse_while` in parse.rs: whitespace-skipping `parse_chars_while`. -/
def parse_while (s : Source) (p : Char → Bool) : Source × Source :=
  parse_chars_while (trimLeft s) p

/-- `parse_string_literal` in parse.rs. -/
def parse_string_literal (s : Source) :
    Except ParseError (Option Source × Source) :=
  match skip s '\x27' with
  | some s1 =>
    match parse_over_delimiter_char s1 '\x27' with
    | .ok (lit, s2) => .ok (some lit, s2)
    | .error e => .error e
  | none => .ok (none, s)

/-- The character class admitted by `parse_identifier` in parse.rs:
anything that is neither whitespace nor one of the four structural
characters dot, colon, opening brace, closing brace. -/
def goodChar (c : Char) : Bool :=
  !c.isWhitespace && !(c = '.' || c = ':' || c = '\x7b' || c = '\x7d')

/-- `parse_identifier` in parse.rs; the returned name may be empty. -/
def parse_identifier (s : Source) : Identifier × Source :=
  let split := parse_while (trimLeft s) goodChar
  (⟨split.1⟩, split.2)

/-- The `while let` loop of `parse_reference` in parse.rs: consume dot-separated
identifiers, pushing only nonempty ones.  Nat-indexed so that the recursion is
structural; the wrapper supplies fuel exceeding the number of possible rounds. -/
def parse_reference_loop : Nat → List Identifier → Source → List Identifier × Source
  | 0, acc, s => (acc, s)
  | fuel+1, acc, s =>
    match skip s '.' with
    | none => (acc, s)
    | some s1 =>
      let step := parse_identifier s1
      parse_reference_loop fuel
        (if step.1.name.isEmpty then acc else acc ++ [step.1]) step.2

/-- `parse_reference` in parse.rs. -/
def parse_reference (s : Source) : Reference × Source :=
  let first := parse_identifier s
  if first.1.name.isEmpty then (⟨[]⟩, first.2)
  else
    let rest := parse_reference_loop (s.length + 1) [first.1] first.2
    (⟨rest.1⟩, rest.2)

/-- One table of the mutually recursive parsing functions of parse.rs at a
fixed recursion depth. -/
structure ParserFuns where
  pobject : Source → Option (Except ParseError (Object × Source))
  pnamed : Source → Option (Except ParseError (Identifier × Object × Source))
  pdelimited : Source → Option (Except ParseError (NamedObjects × Source))
  pdelimLoop : List (Identifier × Nat) → List Object → Source →
    Option (Except ParseError (NamedObjects × Source))
  premLoop : List (Identifier × Nat) → List Object → Source →
    Option (Except ParseError (NamedObjects × Source))

/-- Depth-zero table: every entry is out of fuel. -/
def parserNone : ParserFuns :=
  ⟨fun _ => none, fun _ => none, fun _ => none, fun _ _ _ => none, fun _ _ _ => none⟩

/-- One unfolding of the mutual recursion of parse.rs:
`pobject` is `parse_object`, `pnamed` is `parse_named_object`, `pdelimited`
is `parse_delimited_named_objects` (whose interior loop is `pdelimLoop`),
and `premLoop` is the loop of `parse_remaining_named_objects`. -/
def parserStep (prev : ParserFuns) : ParserFuns where
  pobject := fun s =>
    match parse_string_literal s with
    | .error e => some (.error e)
    | .ok (some lit, s1) => some (.ok (.stringLiteral lit, s1))
    | .ok (none, _) =>
      let proto := parse_reference s
      match prev.pdelimited proto.2 with
      | none => none
      | some (.error e) => some (.error e)
      | some (.ok (ovr, s2)) =>
        some (.ok (.compound proto.1 ovr.objects ovr.identifiers, s2))
  pnamed := fun s =>
    let name := parse_identifier s
    match expect name.2 ':' with
    | .error e => some (.error e)
    | .ok s2 =>
      match prev.pobject s2 with
      | none => none
      | some (.error e) => some (.error e)
      | some (.ok (o, s3)) => some (.ok (name.1, o, s3))
  pdelimited := fun s =>
    match skip s '\x7b' with
    | none => some (.ok (⟨[], []⟩, s))
    | some r => prev.pdelimLoop [] [] r
  pdelimLoop := fun names objs src =>
    let t := trimLeft src
    if t.isEmpty then some (.error (.unexpectedEndOfInput (some '\x7d')))
    else
      match skip t '\x7d' with
      | some r => some (.ok (⟨objs, names⟩, r))
      | none =>
        match prev.pnamed t with
        | none => none
        | some (.error e) => some (.error e)
        | some (.ok (n, o, rest)) =>
          prev.pdelimLoop (idInsert names n objs.length) (objs ++ [o]) rest
  premLoop := fun names objs src =>
    let t := trimLeft src
    if t.isEmpty then some (.ok (⟨objs, names⟩, t))
    else
      match prev.pnamed t with
      | none => none
      | some (.error e) => some (.error e)
      | some (.ok (n, o, rest)) =>
        prev.premLoop (idInsert names n objs.length) (objs ++ [o]) rest

/-- Fuel-indexed family of parser tables. -/
def parserAt : Nat → ParserFuns
  | 0 => parserNone
  | fuel+1 => parserStep (parserAt fuel)

/-- `parse_object` in parse.rs, at a given recursion-depth budget. -/
def parse_object (fuel : Nat) (s : Source) :
    Option (Except ParseError (Object × Source)) :=
  (parserAt fuel).pobject s

/-- `parse_named_object` in parse.rs, at a given recursion-depth budget. -/
def parse_named_object (fuel : Nat) (s : Source) :
    Option (Except ParseError (Identifier × Object × Source)) :=
  (parserAt fuel).pnamed s

/-- `parse_delimited_named_objects` in parse.rs, at a given recursion-depth budget. -/
def parse_delimited_named_objects (fuel : Nat) (s : Source) :
    Option (Except ParseError (NamedObjects × Source)) :=
  (parserAt fuel).pdelimited s

/-- `parse_remaining_named_objects` in parse.rs, at a given recursion-depth budget. -/
def parse_remaining_named_objects (fuel : Nat) (s : Source) :
    Option (Except ParseError (NamedObjects × Source)) :=
  (parserAt fuel).premLoop [] [] s

/-- `parse` in parse.rs.  The fuel `2 * length + 4` dominates the recursion
depth reachable on an input of this length (each named object consumes at
least its colon). -/
def parse (s : Source) : Option (Except ParseError NamedObjects) :=
  match parse_remaining_named_objects (2 * s.length + 4) s with
  | none => none
  | some (.error e) => some (.error e)
  | some (.ok (objects, _restSrc)) => some (.ok objects)

/-- `NamedObjects::resolve_reference_names` in parse.rs.  `none` models the two
`expect` panics (empty identifier list, invalid stored index), both unreachable
from the public entry points. -/
def resolve_reference_names (w : NamedObjects) :
    List Identifier → Option (Except ResolveError Object)
  | [] => none
  | first :: rest =>
    match idLookup w.identifiers first with
    | none => some (.error (.referenceNotFound first))
    | some index =>
      match w.objects.get? index with
      | none => none
      | some identified =>
        if rest.isEmpty then some (.ok identified)
        else
          match identified with
          | .compound _ objs ids => resolve_reference_names ⟨objs, ids⟩ rest
          | .stringLiteral _ => some (.error .stringLiteralHasNoProperties)

/-- `NamedObjects::resolve_reference` in parse.rs. -/
def resolve_reference (w : NamedObjects) (r : Reference) :
    Option (Except ResolveError Object) :=
  resolve_reference_names w r.identifiers

/-- `FlatObject` in flat.rs; `FlatCompound` is its property map, modelled as an
association list. -/
inductive FlatObject where
  | stringLiteral (text : List Char) : FlatObject
  | compound (properties : List (List Char × FlatObject)) : FlatObject

abbrev FlatCompound := List (List Char × FlatObject)

/-- Lookup in the association list modelling `HashMap<String, FlatObject>`. -/
def flatLookup (props : FlatCompound) (k : List Char) : Option FlatObject :=
  match props with
  | [] => none
  | (k2, v) :: rest => if k2 = k then some v else flatLookup rest k

/-- `HashMap::contains_key` on the flat property map. -/
def flatContains (props : FlatCompound) (k : List Char) : Bool :=
  (flatLookup props k).isSome

/-- One table of the mutually recursive resolution functions of flat.rs at a
fixed recursion depth. -/
structure ResolveFuns where
  build : Object → Option (Except ResolveError FlatObject)
  deepFill : Reference → NamedObjects → FlatCompound →
    Option (Except ResolveError FlatCompound)
  fillNamed : List (Identifier × Nat) → List Object → FlatCompound →
    Option (Except ResolveError FlatCompound)

/-- Depth-zero table: every entry is out of fuel. -/
def resolveNone : ResolveFuns :=
  ⟨fun _ => none, fun _ _ _ => none, fun _ _ _ => none⟩

/-- One unfolding of the mutual recursion of flat.rs against the fixed world:
`build` is `build_from_parsed_unnamed_object`, `deepFill` is
`deep_fill_parsed_compound`, `fillNamed` is `fill_named_objects`. -/
def resolveStep (w : NamedObjects) (prev : ResolveFuns) : ResolveFuns where
  build := fun o =>
    match o with
    | .stringLiteral t => some (.ok (.stringLiteral t))
    | .compound proto objs ids =>
      if objs.isEmpty && hasTarget proto then
        match resolve_reference w proto with
        | none => none
        | some (.error e) => some (.error e)
        | some (.ok target) => prev.build target
      else
        match prev.deepFill proto ⟨objs, ids⟩ [] with
        | none => none
        | some (.error e) => some (.error e)
        | some (.ok props) => some (.ok (.compound props))
  deepFill := fun proto ovr props =>
    match prev.fillNamed ovr.identifiers ovr.objects props with
    | none => none
    | some (.error e) => some (.error e)
    | some (.ok props1) =>
      if hasTarget proto then
        match resolve_reference w proto with
        | none => none
        | some (.error e) => some (.error e)
        | some (.ok (.compound proto2 objs2 ids2)) =>
          prev.deepFill proto2 ⟨objs2, ids2⟩ props1
        | some (.ok (.stringLiteral _)) => some (.ok props1)
      else some (.ok props1)
  fillNamed := fun pairs objs props =>
    match pairs with
    | [] => some (.ok props)
    | (id, index) :: rest =>
      if flatContains props id.name then prev.fillNamed rest objs props
      else
        match objs.get? index with
        | none => none
        | some o =>
          match prev.build o with
          | none => none
          | some (.error e) => some (.error e)
          | some (.ok v) => prev.fillNamed rest objs (props ++ [(id.name, v)])

/-- Fuel-indexed family of resolver tables for a fixed world. -/
def resolveAt (w : NamedObjects) : Nat → ResolveFuns
  | 0 => resolveNone
  | fuel+1 => resolveStep w (resolveAt w fuel)

/-- `FlatObject::build_from_parsed_unnamed_object` in flat.rs. -/
def build_from_parsed_unnamed_object (fuel : Nat) (o : Object) (w : NamedObjects) :
    Option (Except ResolveError FlatObject) :=
  (resolveAt w fuel).build o

/-- `FlatObject::deep_fill_parsed_compound` in flat.rs. -/
def deep_fill_parsed_compound (fuel : Nat) (proto : Reference) (ovr : NamedObjects)
    (w : NamedObjects) (props : FlatCompound) :
    Option (Except ResolveError FlatCompound) :=
  (resolveAt w fuel).deepFill proto ovr props

/-- `FlatObject::fill_named_objects` in flat.rs. -/
def fill_named_objects (fuel : Nat) (pairs : List (Identifier × Nat))
    (objs : List Object) (w : NamedObjects) (props : FlatCompound) :
    Option (Except ResolveError FlatCompound) :=
  (resolveAt w fuel).fillNamed pairs objs props

/-- `FlatObject::build_from_parsed` in flat.rs: resolve every top-level object
against the whole document as world. -/
def build_from_parsed (fuel : Nat) (parsed : NamedObjects) :
    Option (Except ResolveError FlatObject) :=
  match (resolveAt parsed fuel).fillNamed parsed.identifiers parsed.objects [] with
  | none => none
  | some (.error e) => some (.error e)
  | some (.ok props) => some (.ok (.compound props))

/-- `FlatObject::parse` in flat.rs: parse, then resolve. -/
def flatParse (resolveFuel : Nat) (s : Source) :
    Option (Except ParseError (Except ResolveError FlatObject)) :=
  match parse s with
  | none => none
  | some (.error e) => some (.error e)
  | some (.ok w) =>
    match build_from_parsed resolveFuel w with
    | none => none
    | some r => some (.ok r)

/-- Name charset actually enforced by `parse_identifier`: every character of
the stored name satisfies `goodChar`. -/
def goodName (n : List Char) : Bool := n.all goodChar

/-- Well-formedness of a parsed reference: every segment has a `goodChar`-only
and nonempty name. -/
def wfRef (r : Reference) : Bool :=
  r.identifiers.all (fun i => goodName i.name && !i.name.isEmpty)

/-- Well-formedness of a parsed object: all reference segments are nonempty
`goodChar` runs and all stored names (which may be empty) are `goodChar` runs,
recursively through nested compounds. -/
def wfObject : Object → Bool
  | .stringLiteral _ => true
  | .compound proto objs ids =>
    wfRef proto && ids.all (fun p => goodName p.1.name) &&
    objs.attach.all (fun o => wfObject o.1)
termination_by o => sizeOf o
decreasing_by
  have h1 := List.sizeOf_lt_of_mem o.2
  simp at h1 ⊢
  omega

/-- The shape of a brace-opened interior on which the input ends before any
matching closing brace appears: a sequence of successfully parsed named
objects followed by whitespace only, never reaching a closing brace.  The
numeric index aligns each step with the fuel the parser's interior loop hands
to `parse_named_object`. -/
inductive EndsBeforeBrace : Nat → Source → Prop where
  | done (fuel : Nat) (r : Source) :
      trimLeft r = [] → EndsBeforeBrace fuel r
  | step (fuel : Nat) (r : Source) (n : Identifier) (o : Object) (rest : Source) :
      ¬ trimLeft r = [] →
      skip (trimLeft r) '\x7d' = none →
      parse_named_object fuel (trimLeft r) = some (.ok (n, o, rest)) →
      EndsBeforeBrace fuel rest →
      EndsBeforeBrace (fuel + 1) r

/-- Overwriting insert makes the inserted value the one found afterwards,
whether or not the key was present before. -/
theorem idLookup_idInsert (m : List (Identifier × Nat)) (k : Identifier) (v : Nat) :
    idLookup (idInsert m k v) k = some v := by
  induction m with
  | nil => simp [idInsert, idLookup]
  | cons p rest ih =>
    obtain ⟨k2, v2⟩ := p
    by_cases h : k2 = k
    · simp [idInsert, idLookup, h]
    · simp [idInsert, idLookup, h, ih]

/-- A key bound in a flat property map keeps its binding under appends: the
lookup returns the first match and appends only add entries behind it. -/
theorem flatLookup_append (props l : FlatCompound) (k : List Char) (v : FlatObject)
    (h : flatLookup props k = some v) : flatLookup (props ++ l) k = some v := by
  induction props with
  | nil => simp [flatLookup] at h
  | cons p rest ih =>
    obtain ⟨k2, v2⟩ := p
    by_cases hk : k2 = k
    · simp [flatLookup, hk] at h ⊢
      exact h
    · simp [flatLookup, hk] at h ⊢
      exact ih h

/-- Claim C1 counterexample: parsing a document that declares `a` twice does
NOT keep the first occurrence in the lookup.  The name lookup maps `a` to
index 1 — the second declaration — because the lookup is built with
`HashMap::insert`, which overwrites; resolving `a` therefore yields the
string `2`, not `1`. -/
theorem claim_C1_counterexample :
    parse (("a:'1' a:'2'").data) =
      some (.ok ⟨[.stringLiteral (("1").data), .stringLiteral (("2").data)],
        [(⟨("a").data⟩, 1)]⟩) ∧
    (some 1 : Option Nat) ≠ some 0 ∧
    flatParse 16 (("a:'1' a:'2'").data) =
      some (.ok (.ok (.compound [(("a").data, .stringLiteral (("2").data))]))) := by
  refine ⟨rfl, by decide, rfl⟩

/-- Claim C1, amended: when the same name is declared twice at the same level
both objects are kept, in order, in the object sequence, but the name lookup
maps the name to the LAST declaration's index (the insert used to build the
lookup overwrites an already-present key), so resolving `a` after parsing
`a:'1' a:'2'` yields `'2'`. -/
theorem claim_C1 :
    (∀ (m : List (Identifier × Nat)) (k : Identifier) (v : Nat),
      idLookup (idInsert m k v) k = some v) ∧
    parse (("a:'1' a:'2'").data) =
      some (.ok ⟨[.stringLiteral (("1").data), .stringLiteral (("2").data)],
        [(⟨("a").data⟩, 1)]⟩) ∧
    flatParse 16 (("a:'1' a:'2'").data) =
      some (.ok (.ok (.compound [(("a").data, .stringLiteral (("2").data))]))) :=
  ⟨idLookup_idInsert, rfl, rfl⟩

/-- Claim C1 witness: the overwrite rule of the amended claim evaluated at a
concrete map that already binds the key. -/
theorem claim_C1_witness :
    idLookup (idInsert [(⟨("a").data⟩, 0)] ⟨("a").data⟩ 1) ⟨("a").data⟩ = some 1 :=
  claim_C1.1 [(⟨("a").data⟩, 0)] ⟨("a").data⟩ 1

/-- Claim C7: a reference to an undeclared name is syntactically valid — the
parse succeeds and produces the dangling reference in the AST — and resolution
then fails with `ReferenceNotFound` carrying exactly the unresolved
identifier; a dotted reference descending into a string literal fails with
`StringLiteralHasNoProperties`. -/
theorem claim_C7 :
    parse (("text: 'x' other: undeclared_name").data) =
      some (.ok ⟨[.stringLiteral (("x").data),
          .compound ⟨[⟨("undeclared_name").data⟩]⟩ [] []],
        [(⟨("text").data⟩, 0), (⟨("other").data⟩, 1)]⟩) ∧
    flatParse 16 (("text: 'x' other: undeclared_name").data) =
      some (.ok (.error (.referenceNotFound ⟨("undeclared_name").data⟩))) ∧
    flatParse 16 (("text: 'x' other: text.foo").data) =
      some (.ok (.error .stringLiteralHasNoProperties)) :=
  ⟨rfl, rfl, rfl⟩

/-- Claim C3: a compound with empty overrides and a prototype with a target is
a pure alias — resolution resolves the prototype reference against the world
and recursively resolves the target itself, and concretely, with
`greeting: 'Ok'` and `alias: greeting`, resolving `alias` yields the string
literal `Ok`, identical to resolving `greeting` directly. -/
theorem claim_C3 :
    (∀ (w : NamedObjects) (fuel : Nat) (proto : Reference)
       (ids : List (Identifier × Nat)),
      hasTarget proto = true →
      build_from_parsed_unnamed_object (fuel + 1) (.compound proto [] ids) w =
        match resolve_reference w proto with
        | none => none
        | some (.error e) => some (.error e)
        | some (.ok target) => build_from_parsed_unnamed_object fuel target w) ∧
    flatParse 16 (("greeting: 'Ok' alias: greeting").data) =
      some (.ok (.ok (.compound
        [(("greeting").data, .stringLiteral (("Ok").data)),
         (("alias").data, .stringLiteral (("Ok").data))]))) := by
  refine ⟨?_, rfl⟩
  intro w fuel proto ids h
  show (resolveStep w (resolveAt w fuel)).build _ = _
  simp only [resolveStep, List.isEmpty_nil, Bool.true_and, h, if_true]
  rfl

/-- Claim C3 witness: the alias-inlining rule applied at a concrete world in
which the alias target is a string literal. -/
theorem claim_C3_witness :
    build_from_parsed_unnamed_object 2
      (.compound ⟨[⟨("g").data⟩]⟩ [] [])
      ⟨[.stringLiteral (("Ok").data)], [(⟨("g").data⟩, 0)]⟩ =
      some (.ok (.stringLiteral (("Ok").data))) := by
  have h := claim_C3.1 ⟨[.stringLiteral (("Ok").data)], [(⟨("g").data⟩, 0)]⟩ 1
    ⟨[⟨("g").data⟩]⟩ [] (by decide)
  exact h.trans rfl

/-- Claim C4: a dotted reference resolves its first segment in the world and
every later segment only in the previously found compound's own overrides,
never in its flattened property set; concretely the dotted reference
`text.cancel.german` resolves through explicit overrides, while `mid.x`
fails with `ReferenceNotFound x` when `mid` merely inherits `x` from its
prototype without overriding it. -/
theorem claim_C4 :
    (∀ (w : NamedObjects) (first : Identifier) (rest : List Identifier)
       (index : Nat) (proto : Reference) (objs : List Object)
       (ids : List (Identifier × Nat)),
      ¬ rest = [] →
      idLookup w.identifiers first = some index →
      w.objects.get? index = some (.compound proto objs ids) →
      resolve_reference_names w (first :: rest) =
        resolve_reference_names ⟨objs, ids⟩ rest) ∧
    flatParse 16
        (("text: \x7b cancel: \x7b german: 'Abbrechen' \x7d \x7d button: \x7b text: text.cancel.german \x7d").data) =
      some (.ok (.ok (.compound
        [(("text").data, .compound
            [(("cancel").data, .compound
              [(("german").data, .stringLiteral (("Abbrechen").data))])]),
         (("button").data, .compound
            [(("text").data, .stringLiteral (("Abbrechen").data))])]))) ∧
    flatParse 16 (("base: \x7b x: 'v' \x7d mid: base \x7b y: 'w' \x7d bad: mid.x").data) =
      some (.ok (.error (.referenceNotFound ⟨("x").data⟩))) := by
  refine ⟨?_, rfl, rfl⟩
  intro w first rest index proto objs ids hrest hlook hget
  rw [List.get?_eq_getElem?] at hget
  simp [resolve_reference_names, hlook, hget, hrest]

/-- Claim C4 witness: the subsequent-segments-in-overrides rule applied at a
concrete world whose first object is a compound. -/
theorem claim_C4_witness :
    resolve_reference_names
      ⟨[.compound ⟨[]⟩ [.stringLiteral (("v").data)] [(⟨("x").data⟩, 0)]],
        [(⟨("a").data⟩, 0)]⟩
      [⟨("a").data⟩, ⟨("x").data⟩] =
      resolve_reference_names
        ⟨[.stringLiteral (("v").data)], [(⟨("x").data⟩, 0)]⟩ [⟨("x").data⟩] := by
  exact claim_C4.1 _ ⟨("a").data⟩ [⟨("x").data⟩] 0 ⟨[]⟩
    [.stringLiteral (("v").data)] [(⟨("x").data⟩, 0)] (by simp) rfl rfl

/-- Claim C6: when a compound has nonempty overrides its resolution goes
through deep-fill, and when its prototype reference resolves to a string
literal the prototype walk contributes nothing and raises no error: deep-fill
equals filling the compound's own overrides alone.  Concretely `c: s { a: 'x' }`
with `s: 'lit'` resolves to a compound holding exactly `a`. -/
theorem claim_C6 :
    (∀ (w : NamedObjects) (fuel : Nat) (proto : Reference) (o : Object)
       (os : List Object) (ids : List (Identifier × Nat)),
      build_from_parsed_unnamed_object (fuel + 1) (.compound proto (o :: os) ids) w =
        match deep_fill_parsed_compound fuel proto ⟨o :: os, ids⟩ w [] with
        | none => none
        | some (.error e) => some (.error e)
        | some (.ok props) => some (.ok (.compound props))) ∧
    (∀ (w : NamedObjects) (fuel : Nat) (proto : Reference) (ovr : NamedObjects)
       (props : FlatCompound) (t : List Char),
      resolve_reference w proto = some (.ok (.stringLiteral t)) →
      deep_fill_parsed_compound (fuel + 1) proto ovr w props =
        fill_named_objects fuel ovr.identifiers ovr.objects w props) ∧
    flatParse 16 (("s: 'lit' c: s \x7b a: 'x' \x7d").data) =
      some (.ok (.ok (.compound
        [(("s").data, .stringLiteral (("lit").data)),
         (("c").data, .compound [(("a").data, .stringLiteral (("x").data))])]))) := by
  refine ⟨?_, ?_, rfl⟩
  · intro w fuel proto o os ids
    rfl
  · intro w fuel proto ovr props t h
    show (resolveStep w (resolveAt w fuel)).deepFill proto ovr props = _
    simp only [resolveStep, fill_named_objects]
    cases hfill : (resolveAt w fuel).fillNamed ovr.identifiers ovr.objects props with
    | none => rfl
    | some r =>
      cases r with
      | error e => rfl
      | ok props1 =>
        by_cases ht : hasTarget proto
        · simp only [ht, if_true, h]
        · simp [ht]

/-- Claim C6 witness: deep-fill through a string-literal prototype evaluated
at a concrete world and compound. -/
theorem claim_C6_witness :
    deep_fill_parsed_compound 2 ⟨[⟨("s").data⟩]⟩
      ⟨[.stringLiteral (("x").data)], [(⟨("a").data⟩, 0)]⟩
      ⟨[.stringLiteral (("lit").data)], [(⟨("s").data⟩, 0)]⟩ [] =
      fill_named_objects 1 [(⟨("a").data⟩, 0)] [.stringLiteral (("x").data)]
        ⟨[.stringLiteral (("lit").data)], [(⟨("s").data⟩, 0)]⟩ [] := by
  exact claim_C6.2.1 ⟨[.stringLiteral (("lit").data)], [(⟨("s").data⟩, 0)]⟩ 1
    ⟨[⟨("s").data⟩]⟩ ⟨[.stringLiteral (("x").data)], [(⟨("a").data⟩, 0)]⟩ []
    (("lit").data) rfl

/-- Filling named objects never disturbs a binding already present in the
accumulating property map: entries are only appended, and only for absent
keys. -/
theorem fillNamed_preserves (w : NamedObjects) :
    ∀ (fuel : Nat) (pairs : List (Identifier × Nat)) (objs : List Object)
      (props props' : FlatCompound) (k : List Char) (v : FlatObject),
      flatLookup props k = some v →
      (resolveAt w fuel).fillNamed pairs objs props = some (.ok props') →
      flatLookup props' k = some v := by
  intro fuel
  induction fuel with
  | zero =>
    intro pairs objs props props' k v hv h
    simp [resolveAt, resolveNone] at h
  | succ fuel ih =>
    intro pairs objs props props' k v hv h
    rw [show resolveAt w (fuel + 1) = resolveStep w (resolveAt w fuel) from rfl] at h
    simp only [resolveStep] at h
    cases pairs with
    | nil =>
      simp only [Option.some.injEq, Except.ok.injEq] at h
      exact h ▸ hv
    | cons p rest =>
      obtain ⟨id, index⟩ := p
      dsimp only at h
      by_cases hc : flatContains props id.name = true
      · rw [if_pos hc] at h
        exact ih rest objs props props' k v hv h
      · rw [if_neg hc] at h
        cases hget : objs.get? index with
        | none => rw [hget] at h; simp at h
        | some o =>
          rw [hget] at h
          dsimp only at h
          cases hb : (resolveAt w fuel).build o with
          | none => rw [hb] at h; simp at h
          | some r =>
            cases r with
            | error e => rw [hb] at h; simp at h
            | ok v2 =>
              rw [hb] at h
              dsimp only at h
              exact ih rest objs _ props' k v
                (flatLookup_append props [(id.name, v2)] k v hv) h

/-- Deep-fill never disturbs a binding already present in the accumulating
property map: own overrides are inserted first and the whole prototype walk
only adds bindings for names that are still absent, so a nearer override
always survives the walk over farther ancestors. -/
theorem deepFill_preserves (w : NamedObjects) :
    ∀ (fuel : Nat) (proto : Reference) (ovr : NamedObjects)
      (props props' : FlatCompound) (k : List Char) (v : FlatObject),
      flatLookup props k = some v →
      (resolveAt w fuel).deepFill proto ovr props = some (.ok props') →
      flatLookup props' k = some v := by
  intro fuel
  induction fuel with
  | zero =>
    intro proto ovr props props' k v hv h
    simp [resolveAt, resolveNone] at h
  | succ fuel ih =>
    intro proto ovr props props' k v hv h
    rw [show resolveAt w (fuel + 1) = resolveStep w (resolveAt w fuel) from rfl] at h
    simp only [resolveStep] at h
    cases hfill : (resolveAt w fuel).fillNamed ovr.identifiers ovr.objects props with
    | none => rw [hfill] at h; cases h
    | some r =>
      cases r with
      | error e => rw [hfill] at h; simp at h
      | ok props1 =>
        rw [hfill] at h
        dsimp only at h
        have hv1 : flatLookup props1 k = some v :=
          fillNamed_preserves w fuel ovr.identifiers ovr.objects props props1 k v hv hfill
        by_cases ht : hasTarget proto = true
        · rw [if_pos ht] at h
          cases hres : resolve_reference w proto with
          | none => rw [hres] at h; simp at h
          | some r2 =>
            cases r2 with
            | error e => rw [hres] at h; simp at h
            | ok obj =>
              rw [hres] at h
              cases obj with
              | compound p2 o2 i2 => exact ih p2 ⟨o2, i2⟩ props1 props' k v hv1 h
              | stringLiteral t =>
                simp only [Option.some.injEq, Except.ok.injEq] at h
                exact h ▸ hv1
        · rw [if_neg ht] at h
          simp only [Option.some.injEq, Except.ok.injEq] at h
          exact h ▸ hv1

/-- Claim C2: resolution of a compound inserts the compound's own resolved
overrides first and then walks the prototype chain inserting only names not
already present, so a binding already in the accumulating result — in
particular a nearer override — is never overwritten by the walk; concretely,
with `base: { x: '0' y: '0' }` and `derived: base { x: '1' }`, resolving
`derived` yields x bound to `1` and y bound to `0`. -/
theorem claim_C2 :
    (∀ (w : NamedObjects) (fuel : Nat) (proto : Reference) (ovr : NamedObjects)
       (props props' : FlatCompound) (k : List Char) (v : FlatObject),
      flatLookup props k = some v →
      deep_fill_parsed_compound fuel proto ovr w props = some (.ok props') →
      flatLookup props' k = some v) ∧
    flatParse 16 (("base: \x7b x: '0' y: '0' \x7d derived: base \x7b x: '1' \x7d").data) =
      some (.ok (.ok (.compound
        [(("base").data, .compound
            [(("x").data, .stringLiteral (("0").data)),
             (("y").data, .stringLiteral (("0").data))]),
         (("derived").data, .compound
            [(("x").data, .stringLiteral (("1").data)),
             (("y").data, .stringLiteral (("0").data))])]))) := by
  refine ⟨?_, rfl⟩
  intro w fuel proto ovr props props' k v hv h
  exact deepFill_preserves w fuel proto ovr props props' k v hv h

/-- Claim C2 witness: the preservation rule applied to a concrete accumulating
map that already binds x before the prototype walk runs. -/
theorem claim_C2_witness :
    flatLookup [(("x").data, FlatObject.stringLiteral (("1").data))] (("x").data) =
      some (.stringLiteral (("1").data)) ∧
    flatLookup [(("x").data, FlatObject.stringLiteral (("1").data))] (("x").data) =
      some (.stringLiteral (("1").data)) := by
  refine ⟨rfl, ?_⟩
  exact claim_C2.1 ⟨[], []⟩ 2 ⟨[]⟩ ⟨[], []⟩
    [(("x").data, .stringLiteral (("1").data))]
    [(("x").data, .stringLiteral (("1").data))] (("x").data)
    (.stringLiteral (("1").data)) rfl rfl

/-- When the interior of a brace-opened block consists of parsable named
objects followed only by whitespace and never reaches a closing brace, the
interior loop of `parse_delimited_named_objects` reports end of input
expecting a closing brace, whatever it completes to. -/
theorem pdelimLoop_ends_before_brace :
    ∀ (fuel : Nat) (r : Source), EndsBeforeBrace fuel r →
      ∀ (names : List (Identifier × Nat)) (objs : List Object)
        (x : Except ParseError (NamedObjects × Source)),
        (parserAt fuel).pdelimLoop names objs r = some x →
        x = .error (.unexpectedEndOfInput (some '\x7d')) := by
  intro fuel r h
  induction h with
  | done fuel r ht =>
    intro names objs x hx
    cases fuel with
    | zero => simp [parserAt, parserNone] at hx
    | succ g =>
      rw [show parserAt (g + 1) = parserStep (parserAt g) from rfl] at hx
      simp only [parserStep, ht, List.isEmpty_nil, if_true] at hx
      simp only [Option.some.injEq] at hx
      exact hx.symm
  | step g r n o rest hne hskip hnamed hrest ih =>
    intro names objs x hx
    rw [show parserAt (g + 1) = parserStep (parserAt g) from rfl] at hx
    have hne2 : (trimLeft r).isEmpty = false := by
      cases hcase : trimLeft r with
      | nil => exact absurd hcase hne
      | cons c cs => rfl
    simp only [parserStep, hne2, Bool.false_eq_true, if_false] at hx
    rw [hskip] at hx
    simp only [parse_named_object] at hnamed
    rw [hnamed] at hx
    dsimp only at hx
    exact ih (idInsert names n objs.length) (objs ++ [o]) x hx

/-- Claim C8: a brace opened and never matched before the input ends makes the
parse fail with end-of-input expecting a closing brace (stated for any
brace-opened source whose interior is a run of parsable named objects followed
by whitespace, and concretely for the unterminated block of the spec), and an
opening quote never followed by a closing quote makes the parse fail with
end-of-input expecting a quote (stated for any quote-free remainder, and
concretely for the unterminated literal of the spec). -/
theorem claim_C8 :
    (∀ (fuel : Nat) (s r : Source) (x : Except ParseError (NamedObjects × Source)),
      skip s '\x7b' = some r →
      EndsBeforeBrace fuel r →
      parse_delimited_named_objects (fuel + 1) s = some x →
      x = .error (.unexpectedEndOfInput (some '\x7d'))) ∧
    (∀ (s r : Source),
      skip s '\x27' = some r →
      (∀ c ∈ r, ¬ c = '\x27') →
      parse_string_literal s = .error (.unexpectedEndOfInput (some '\x27'))) ∧
    parse (("a: \x7b b: 'x'").data) =
      some (.error (.unexpectedEndOfInput (some '\x7d'))) ∧
    parse (("a: 'unterminated").data) =
      some (.error (.unexpectedEndOfInput (some '\x27'))) := by
  refine ⟨?_, ?_, rfl, rfl⟩
  · intro fuel s r x hskip hends hx
    rw [show parse_delimited_named_objects (fuel + 1) s
        = (parserStep (parserAt fuel)).pdelimited s from rfl] at hx
    simp only [parserStep] at hx
    rw [hskip] at hx
    exact pdelimLoop_ends_before_brace fuel r hends [] [] x hx
  · intro s r hskip hfree
    have h1 : r.takeWhile (fun c => !(c = '\x27')) = r := by
      rw [List.takeWhile_eq_self_iff]
      intro c hc
      simp [hfree c hc]
    have h2 : r.dropWhile (fun c => !(c = '\x27')) = [] := by
      rw [List.dropWhile_eq_nil_iff]
      intro c hc
      simp [hfree c hc]
    simp [parse_string_literal, hskip, parse_over_delimiter_char,
      parse_chars_while, h1, h2, expect_char, skip_char]

/-- Claim C8 witness: the brace rule applied to a lone opening brace (empty
interior) and the quote rule applied to a quote followed by a single
non-quote character. -/
theorem claim_C8_witness :
    parse_delimited_named_objects 2 (("\x7b").data) =
      some (.error (.unexpectedEndOfInput (some '\x7d'))) ∧
    parse_string_literal (("'x").data) =
      .error (.unexpectedEndOfInput (some '\x27')) := by
  constructor
  · have h := claim_C8.1 1 (("\x7b").data) []
      (.error (.unexpectedEndOfInput (some '\x7d'))) rfl
      (.done 1 [] rfl) rfl
    exact Eq.trans rfl (congrArg some h)
  · exact claim_C8.2.1 (("'x").data) (("x").data) rfl (by decide)

/-- Scanning up to a delimiter keeps a delimiter-free prefix whole. -/
theorem takeWhile_no_delim (q : Char) :
    ∀ (s rest : Source), (∀ c ∈ s, ¬ c = q) →
      (s ++ q :: rest).takeWhile (fun c => !(c = q)) = s := by
  intro s
  induction s with
  | nil =>
    intro rest h
    simp
  | cons c cs ih =>
    intro rest h
    have hc : ¬ c = q := h c (List.mem_cons_self c cs)
    simp only [List.cons_append]
    rw [List.takeWhile_cons_of_pos (by simp [hc])]
    rw [ih rest (fun d hd => h d (List.mem_cons_of_mem c hd))]

/-- Scanning up to a delimiter drops exactly the delimiter-free prefix. -/
theorem dropWhile_no_delim (q : Char) :
    ∀ (s rest : Source), (∀ c ∈ s, ¬ c = q) →
      (s ++ q :: rest).dropWhile (fun c => !(c = q)) = q :: rest := by
  intro s
  induction s with
  | nil =>
    intro rest h
    simp
  | cons c cs ih =>
    intro rest h
    have hc : ¬ c = q := h c (List.mem_cons_self c cs)
    simp only [List.cons_append]
    rw [List.dropWhile_cons_of_pos (by simp [hc])]
    exact ih rest (fun d hd => h d (List.mem_cons_of_mem c hd))

/-- A delimiter-free prefix followed by the delimiter parses to exactly that
prefix, consuming the delimiter. -/
theorem parse_over_delimiter_char_closes (q : Char) (s rest : Source)
    (h : ∀ c ∈ s, ¬ c = q) :
    parse_over_delimiter_char (s ++ q :: rest) q = .ok (s, rest) := by
  simp only [parse_over_delimiter_char, parse_chars_while,
    takeWhile_no_delim q s rest h, dropWhile_no_delim q s rest h,
    expect_char, skip_char]
  simp

/-- A quote, a quote-free body, and a closing quote parse as a string literal
returning the body verbatim. -/
theorem parse_string_literal_closes (s rest : Source)
    (h : ∀ c ∈ s, ¬ c = '\x27') :
    parse_string_literal (' ' :: '\x27' :: (s ++ '\x27' :: rest)) =
      .ok (some s, rest) := by
  have e : parse_string_literal (' ' :: '\x27' :: (s ++ '\x27' :: rest)) =
      match parse_over_delimiter_char (s ++ '\x27' :: rest) '\x27' with
      | .ok (lit, s2) => .ok (some lit, s2)
      | .error e => .error e := rfl
  rw [e, parse_over_delimiter_char_closes '\x27' s rest h]

/-- A source whose string-literal parse succeeds makes `parse_object` return
that literal. -/
theorem pobject_literal (f : Nat) (s0 lit rest : Source)
    (h : parse_string_literal s0 = .ok (some lit, rest)) :
    (parserAt (f + 1)).pobject s0 = some (.ok (.stringLiteral lit, rest)) := by
  rw [show parserAt (f + 1) = parserStep (parserAt f) from rfl]
  show (match parse_string_literal s0 with
    | Except.error e => some (Except.error e)
    | Except.ok (some l, s1) => some (Except.ok (Object.stringLiteral l, s1))
    | Except.ok (none, _) =>
      match (parserAt f).pdelimited (parse_reference s0).2 with
      | none => none
      | some (Except.error e) => some (Except.error e)
      | some (Except.ok (ovr, s2)) =>
        some (Except.ok
          (Object.compound (parse_reference s0).1 ovr.objects ovr.identifiers, s2))) = _
  rw [h]

/-- `parse_named_object` assembled from a successful colon check and object
parse. -/
theorem pnamed_of_parts (f : Nat) (s s2 s3 : Source) (o : Object)
    (hexp : expect (parse_identifier s).2 ':' = .ok s2)
    (hobj : (parserAt f).pobject s2 = some (.ok (o, s3))) :
    (parserAt (f + 1)).pnamed s = some (.ok ((parse_identifier s).1, o, s3)) := by
  rw [show parserAt (f + 1) = parserStep (parserAt f) from rfl]
  show (match expect (parse_identifier s).2 ':' with
    | Except.error e => some (Except.error e)
    | Except.ok s2 =>
      match (parserAt f).pobject s2 with
      | none => none
      | some (Except.error e) => some (Except.error e)
      | some (Except.ok (o, s3)) => some (Except.ok ((parse_identifier s).1, o, s3))) = _
  rw [hexp]
  dsimp only
  rw [hobj]

/-- One round of the top-level loop of `parse_remaining_named_objects`. -/
theorem premLoop_step (f : Nat) (names : List (Identifier × Nat))
    (objs : List Object) (s : Source) (n : Identifier) (o : Object)
    (rest : Source) (hne : (trimLeft s).isEmpty = false)
    (hnamed : (parserAt f).pnamed (trimLeft s) = some (.ok (n, o, rest))) :
    (parserAt (f + 1)).premLoop names objs s =
      (parserAt f).premLoop (idInsert names n objs.length) (objs ++ [o]) rest := by
  rw [show parserAt (f + 1) = parserStep (parserAt f) from rfl]
  simp only [parserStep, hne, Bool.false_eq_true, if_false]
  rw [hnamed]

/-- The top-level loop of `parse_remaining_named_objects` finishes once only
whitespace remains. -/
theorem premLoop_done (f : Nat) (names : List (Identifier × Nat))
    (objs : List Object) (s : Source) (ht : trimLeft s = []) :
    (parserAt (f + 1)).premLoop names objs s = some (.ok (⟨objs, names⟩, [])) := by
  rw [show parserAt (f + 1) = parserStep (parserAt f) from rfl]
  simp only [parserStep, ht, List.isEmpty_nil, if_true]

/-- Parsing a document that binds the fixed name to a quoted, quote-free body
yields exactly that one string-literal object. -/
theorem premLoop_literal_doc (f : Nat) (s : Source)
    (h : ∀ c ∈ s, ¬ c = '\x27') :
    (parserAt (f + 3)).premLoop [] [] (("name: '").data ++ (s ++ ['\x27'])) =
      some (.ok (⟨[.stringLiteral s], [(⟨("name").data⟩, 0)]⟩, [])) := by
  have hlit : parse_string_literal (' ' :: '\x27' :: (s ++ '\x27' :: [])) =
      .ok (some s, []) := parse_string_literal_closes s [] h
  have hobj : (parserAt (f + 1)).pobject (' ' :: '\x27' :: (s ++ '\x27' :: [])) =
      some (.ok (.stringLiteral s, [])) :=
    pobject_literal f (' ' :: '\x27' :: (s ++ '\x27' :: [])) s [] hlit
  have hexp : expect
      (parse_identifier (("name: '").data ++ (s ++ ['\x27']))).2 ':' =
      .ok (' ' :: '\x27' :: (s ++ '\x27' :: [])) := rfl
  have hnamed := pnamed_of_parts (f + 1)
    (("name: '").data ++ (s ++ ['\x27'])) (' ' :: '\x27' :: (s ++ '\x27' :: []))
    [] (.stringLiteral s) hexp hobj
  have hne : (trimLeft (("name: '").data ++ (s ++ ['\x27']))).isEmpty = false := rfl
  have hstep := premLoop_step (f + 2) [] []
    (("name: '").data ++ (s ++ ['\x27'])) ⟨("name").data⟩ (.stringLiteral s)
    [] hne hnamed
  rw [hstep]
  exact premLoop_done (f + 1) [(⟨("name").data⟩, 0)] [.stringLiteral s] [] rfl

/-- Claim C9: for every string without an embedded quote, parsing a document
binding a name to that quoted string and then resolving yields a top-level
compound mapping the name to exactly that string, verbatim — no escaping,
trimming, or interpretation. -/
theorem claim_C9 :
    ∀ (s : Source), (∀ c ∈ s, ¬ c = '\x27') →
      flatParse 2 (("name: '").data ++ (s ++ ['\x27'])) =
        some (.ok (.ok (.compound [(("name").data, .stringLiteral s)]))) := by
  intro s h
  have hparse : parse (("name: '").data ++ (s ++ ['\x27'])) =
      some (.ok ⟨[.stringLiteral s], [(⟨("name").data⟩, 0)]⟩) := by
    have hlen : 2 * ((("name: '").data ++ (s ++ ['\x27'])).length) + 4 =
        (2 * ((("name: '").data ++ (s ++ ['\x27'])).length) + 1) + 3 := by omega
    rw [parse, parse_remaining_named_objects, hlen,
      premLoop_literal_doc (2 * ((("name: '").data ++ (s ++ ['\x27'])).length) + 1) s h]
  rw [flatParse, hparse]
  rfl

/-- Claim C9 witness: the round-trip rule evaluated at the body hi. -/
theorem claim_C9_witness :
    flatParse 2 (("name: '").data ++ ((("hi").data) ++ ['\x27'])) =
      some (.ok (.ok (.compound [(("name").data, .stringLiteral (("hi").data))]))) :=
  claim_C9 (("hi").data) (by decide)

/-- Well-formedness of a compound node unfolded to its three components. -/
theorem wfObject_compound_iff (proto : Reference) (objs : List Object)
    (ids : List (Identifier × Nat)) :
    wfObject (.compound proto objs ids) = true ↔
      (wfRef proto = true ∧ ids.all (fun p => goodName p.1.name) = true ∧
        ∀ o ∈ objs, wfObject o = true) := by
  rw [wfObject]
  simp [List.all_eq_true, List.mem_attach, Subtype.forall, and_assoc]

/-- The name produced by `parse_identifier` consists of `goodChar`s only. -/
theorem parse_identifier_good (s : Source) :
    goodName (parse_identifier s).1.name = true := by
  simp only [parse_identifier, parse_while, parse_chars_while, goodName]
  exact List.all_takeWhile

/-- The reference loop preserves segment well-formedness of its accumulator. -/
theorem parse_reference_loop_wf :
    ∀ (fuel : Nat) (acc : List Identifier) (s : Source),
      acc.all (fun i => goodName i.name && !i.name.isEmpty) = true →
      ((parse_reference_loop fuel acc s).1).all
        (fun i => goodName i.name && !i.name.isEmpty) = true := by
  intro fuel
  induction fuel with
  | zero => intro acc s h; exact h
  | succ fuel ih =>
    intro acc s h
    rw [parse_reference_loop]
    cases hskip : skip s '.' with
    | none => exact h
    | some s1 =>
      dsimp only
      apply ih
      by_cases he : (parse_identifier s1).1.name.isEmpty = true
      · simp [he, h]
      · have hgood := parse_identifier_good s1
        simp only [he, if_false, Bool.false_eq_true]
        rw [List.all_append]
        simp [h, hgood, he]

/-- Every reference the parser produces has only nonempty `goodChar`-run
segments. -/
theorem parse_reference_wf (s : Source) :
    wfRef (parse_reference s).1 = true := by
  rw [parse_reference]
  by_cases he : (parse_identifier s).1.name.isEmpty = true
  · simp [he, wfRef]
  · have hgood := parse_identifier_good s
    simp only [he, if_false, Bool.false_eq_true]
    apply parse_reference_loop_wf
    simp [hgood, he]

/-- Overwriting insert preserves a name predicate held by the map when the
inserted key satisfies it. -/
theorem idInsert_all_names (q : Identifier → Bool) :
    ∀ (m : List (Identifier × Nat)) (k : Identifier) (v : Nat),
      m.all (fun p => q p.1) = true → q k = true →
      (idInsert m k v).all (fun p => q p.1) = true := by
  intro m
  induction m with
  | nil => intro k v hm hk; simp [idInsert, hk]
  | cons p rest ih =>
    intro k v hm hk
    obtain ⟨k2, v2⟩ := p
    simp only [List.all_cons, Bool.and_eq_true] at hm
    by_cases hkk : k2 = k
    · simp [idInsert, hkk, hm, hk]
    · simp only [idInsert, hkk, if_false]
      simp [hm, ih k v hm.2 hk]

/-- Every object and every name the parser emits, at any depth and any fuel,
is well formed: names are `goodChar` runs and reference segments are nonempty
`goodChar` runs. -/
theorem parser_wf (fuel : Nat) :
    (∀ s r, (parserAt fuel).pobject s = some (.ok r) → wfObject r.1 = true) ∧
    (∀ s r, (parserAt fuel).pnamed s = some (.ok r) →
      goodName r.1.name = true ∧ wfObject r.2.1 = true) ∧
    (∀ s r, (parserAt fuel).pdelimited s = some (.ok r) →
      r.1.identifiers.all (fun p => goodName p.1.name) = true ∧
      ∀ o ∈ r.1.objects, wfObject o = true) ∧
    (∀ names objs s r,
      names.all (fun p => goodName p.1.name) = true →
      (∀ o ∈ objs, wfObject o = true) →
      (parserAt fuel).pdelimLoop names objs s = some (.ok r) →
      r.1.identifiers.all (fun p => goodName p.1.name) = true ∧
      ∀ o ∈ r.1.objects, wfObject o = true) ∧
    (∀ names objs s r,
      names.all (fun p => goodName p.1.name) = true →
      (∀ o ∈ objs, wfObject o = true) →
      (parserAt fuel).premLoop names objs s = some (.ok r) →
      r.1.identifiers.all (fun p => goodName p.1.name) = true ∧
      ∀ o ∈ r.1.objects, wfObject o = true) := by
  induction fuel with
  | zero =>
    refine ⟨?_, ?_, ?_, ?_, ?_⟩ <;> intros <;> simp_all [parserAt, parserNone]
  | succ fuel ih =>
    obtain ⟨ihO, ihN, ihD, ihDL, ihRL⟩ := ih
    rw [show parserAt (fuel + 1) = parserStep (parserAt fuel) from rfl]
    refine ⟨?_, ?_, ?_, ?_, ?_⟩
    · intro s r h
      simp only [parserStep] at h
      cases hsl : parse_string_literal s with
      | error e => rw [hsl] at h; simp at h
      | ok pr =>
        obtain ⟨olit, s1⟩ := pr
        cases olit with
        | some lit =>
          rw [hsl] at h
          simp only [Option.some.injEq, Except.ok.injEq] at h
          rw [← h]
          simp [wfObject]
        | none =>
          rw [hsl] at h
          dsimp only at h
          cases hd : (parserAt fuel).pdelimited (parse_reference s).2 with
          | none => rw [hd] at h; simp at h
          | some rr =>
            cases rr with
            | error e => rw [hd] at h; simp at h
            | ok pr2 =>
              obtain ⟨ovr, s2⟩ := pr2
              rw [hd] at h
              simp only [Option.some.injEq, Except.ok.injEq] at h
              rw [← h]
              have hovr := ihD (parse_reference s).2 (ovr, s2) hd
              refine (wfObject_compound_iff _ _ _).mpr ?_
              exact ⟨parse_reference_wf s, hovr.1, hovr.2⟩
    · intro s r h
      simp only [parserStep] at h
      cases hexp : expect (parse_identifier s).2 ':' with
      | error e => rw [hexp] at h; simp at h
      | ok s2 =>
        rw [hexp] at h
        dsimp only at h
        cases ho : (parserAt fuel).pobject s2 with
        | none => rw [ho] at h; simp at h
        | some rr =>
          cases rr with
          | error e => rw [ho] at h; simp at h
          | ok pr =>
            obtain ⟨o, s3⟩ := pr
            rw [ho] at h
            simp only [Option.some.injEq, Except.ok.injEq] at h
            rw [← h]
            exact ⟨parse_identifier_good s, ihO s2 (o, s3) ho⟩
    · intro s r h
      simp only [parserStep] at h
      cases hsk : skip s '\x7b' with
      | none =>
        rw [hsk] at h
        simp only [Option.some.injEq, Except.ok.injEq] at h
        rw [← h]
        simp
      | some rr =>
        rw [hsk] at h
        exact ihDL [] [] rr r rfl (by intro o ho; simp at ho) h
    · intro names objs s r hn ho h
      simp only [parserStep] at h
      by_cases hte : (trimLeft s).isEmpty = true
      · rw [if_pos hte] at h; simp at h
      · rw [if_neg hte] at h
        cases hsk : skip (trimLeft s) '\x7d' with
        | some rr =>
          rw [hsk] at h
          simp only [Option.some.injEq, Except.ok.injEq] at h
          rw [← h]
          exact ⟨hn, ho⟩
        | none =>
          rw [hsk] at h
          dsimp only at h
          cases hnm : (parserAt fuel).pnamed (trimLeft s) with
          | none => rw [hnm] at h; simp at h
          | some rr =>
            cases rr with
            | error e => rw [hnm] at h; simp at h
            | ok pr =>
              obtain ⟨n, o, rest⟩ := pr
              rw [hnm] at h
              dsimp only at h
              have hno := ihN (trimLeft s) (n, o, rest) hnm
              refine ihDL (idInsert names n objs.length) (objs ++ [o]) rest r
                (idInsert_all_names (fun i => goodName i.name) names n objs.length hn hno.1)
                ?_ h
              intro o2 ho2
              rw [List.mem_append] at ho2
              cases ho2 with
              | inl hin => exact ho o2 hin
              | inr hin => rw [List.mem_singleton] at hin; rw [hin]; exact hno.2
    · intro names objs s r hn ho h
      simp only [parserStep] at h
      by_cases hte : (trimLeft s).isEmpty = true
      · rw [if_pos hte] at h
        simp only [Option.some.injEq, Except.ok.injEq] at h
        rw [← h]
        exact ⟨hn, ho⟩
      · rw [if_neg hte] at h
        cases hnm : (parserAt fuel).pnamed (trimLeft s) with
        | none => rw [hnm] at h; simp at h
        | some rr =>
          cases rr with
          | error e => rw [hnm] at h; simp at h
          | ok pr =>
            obtain ⟨n, o, rest⟩ := pr
            rw [hnm] at h
            dsimp only at h
            have hno := ihN (trimLeft s) (n, o, rest) hnm
            refine ihRL (idInsert names n objs.length) (objs ++ [o]) rest r
              (idInsert_all_names (fun i => goodName i.name) names n objs.length hn hno.1)
              ?_ h
            intro o2 ho2
            rw [List.mem_append] at ho2
            cases ho2 with
            | inl hin => exact ho o2 hin
            | inr hin => rw [List.mem_singleton] at hin; rw [hin]; exact hno.2

/-- A successful top-level parse yields only well-formed names and objects. -/
theorem parse_wf_top (s : Source) (w : NamedObjects)
    (h : parse s = some (.ok w)) :
    w.identifiers.all (fun p => goodName p.1.name) = true ∧
    ∀ o ∈ w.objects, wfObject o = true := by
  rw [parse] at h
  cases hrem : parse_remaining_named_objects (2 * s.length + 4) s with
  | none => rw [hrem] at h; simp at h
  | some rr =>
    cases rr with
    | error e => rw [hrem] at h; simp at h
    | ok pr =>
      obtain ⟨w0, rest⟩ := pr
      rw [hrem] at h
      simp only [Option.some.injEq, Except.ok.injEq] at h
      rw [parse_remaining_named_objects] at hrem
      have := (parser_wf (2 * s.length + 4)).2.2.2.2 [] [] s (w0, rest) rfl
        (by intro o ho; simp at ho) hrem
      rw [← h]
      exact this

/-- Claim C5 counterexample: parsing a document whose name is the dollar sign
succeeds and stores that identifier, although the dollar sign is neither
alphanumeric nor an underscore; parsing a document with an empty name before
the colon also succeeds and stores an empty identifier. -/
theorem claim_C5_counterexample :
    parse (("$: 'v'").data) =
      some (.ok ⟨[.stringLiteral (("v").data)], [(⟨("$").data⟩, 0)]⟩) ∧
    ¬ (('$'.isAlphanum || '$' = '_') = true) ∧
    parse ((": 'v'").data) =
      some (.ok ⟨[.stringLiteral (("v").data)], [(⟨[]⟩, 0)]⟩) :=
  ⟨rfl, by decide, rfl⟩

/-- Claim C5, amended: for every successful parse, every Identifier stored in
the AST is a run of characters that are neither whitespace nor one of the four
structural characters dot, colon, opening brace, closing brace (`goodChar`);
object names may be empty (as the parse of a document with an empty name
shows), while reference segments are additionally nonempty — the
alphanumeric-or-underscore restriction of the original claim is not enforced
anywhere. -/
theorem claim_C5 :
    (∀ (s : Source) (w : NamedObjects), parse s = some (.ok w) →
      w.identifiers.all (fun p => goodName p.1.name) = true ∧
      ∀ o ∈ w.objects, wfObject o = true) ∧
    parse ((": 'v'").data) =
      some (.ok ⟨[.stringLiteral (("v").data)], [(⟨[]⟩, 0)]⟩) :=
  ⟨parse_wf_top, rfl⟩

/-- Claim C5 witness: the amended name invariant instantiated at the parse of
a document naming an object with a dollar sign. -/
theorem claim_C5_witness :
    (⟨[.stringLiteral (("v").data)], [(⟨("$").data⟩, 0)]⟩ : NamedObjects).identifiers.all
      (fun p => goodName p.1.name) = true :=
  (claim_C5.1 (("$: 'v'").data)
    ⟨[.stringLiteral (("v").data)], [(⟨("$").data⟩, 0)]⟩ rfl).1

/-- Claim C10: every reference the parser produces contains only nonempty
identifier segments — empty segments arising from consecutive dots are
silently dropped rather than stored or reported as a parse error — and
concretely the reference text with two consecutive dots parses to the
two-segment reference. -/
theorem claim_C10 :
    (∀ (s : Source) (w : NamedObjects), parse s = some (.ok w) →
      ∀ o ∈ w.objects, wfObject o = true) ∧
    (∀ (proto : Reference) (objs : List Object) (ids : List (Identifier × Nat)),
      wfObject (.compound proto objs ids) = true →
      ∀ i ∈ proto.identifiers, ¬ i.name = []) ∧
    parse_reference (("a..b").data) =
      (⟨[⟨("a").data⟩, ⟨("b").data⟩]⟩, []) := by
  refine ⟨fun s w h => (parse_wf_top s w h).2, ?_, rfl⟩
  intro proto objs ids h i hi
  have hw := ((wfObject_compound_iff proto objs ids).mp h).1
  rw [wfRef, List.all_eq_true] at hw
  have := hw i hi
  simp only [Bool.and_eq_true] at this
  simpa using this.2

/-- Claim C10 witness: nonemptiness of a stored reference segment obtained by
applying the invariant to the parse of a document whose prototype reference
contains consecutive dots. -/
theorem claim_C10_witness :
    ¬ (⟨("a").data⟩ : Identifier).name = [] :=
  claim_C10.2.1 ⟨[⟨("a").data⟩, ⟨("b").data⟩]⟩ [] []
    (claim_C10.1 (("r: a..b").data)
      ⟨[.compound ⟨[⟨("a").data⟩, ⟨("b").data⟩]⟩ [] []], [(⟨("r").data⟩, 0)]⟩ rfl
      (.compound ⟨[⟨("a").data⟩, ⟨("b").data⟩]⟩ [] []) (by simp))
    ⟨("a").data⟩ (by simp)

end ProtoTemplates
